import Mathlib

/-!
Verification of the konbini reactive-store library (`src/index.ts`) against its
design specification.

The repository source `src/index.ts` is a thin store-contract wrapper around the
`trkl` observable engine, which is an external dependency whose code is not part
of the repository sources; the specification (§2-§4, §6) describes that engine
in full. We therefore model the engine from the specification (each such
definition carries a `Modelled from the spec:` doc comment) and embed the
wrapper functions `konbini`, `computed`, the arity-dispatching callable, `set`,
and `subscribe` directly from `src/index.ts`.

Modelling choices:
* Values are `Val := Option Nat`; `none` models the JavaScript `undefined`
  (a store created without an initial value holds `undefined`).
* Cells live in a heap, `State.cells : List Cell`, addressed by position;
  a `Konbini` store is a record holding the heap address of its underlying
  trkl observable (the `store.trkl` property of `src/index.ts`), looked up
  on every operation exactly as the property access in the source is.
* Compute functions are embedded as a small expression language `Expr`;
  evaluation returns the value together with the list of cells read, which
  realises the spec's ambient dependency tracker (§3, §4.4): during one
  recompute the tracker stack's top is the recomputing cell itself, so the
  cells read during `evalExpr` are exactly the dependencies the tracker
  would attribute to it, including reads of other (cached) computeds.
* Subscriber callbacks are identified by numeric ids; a notification to
  subscriber `sid` with values `(new, old)` is recorded by appending
  `(sid, new, old)` to `State.log`.  Counting log entries models counting
  callback invocations.
* The write / fan-out / recompute cascade of §2 and §4 is a single
  fuel-indexed interpreter `run`; `none` means the fuel ran out (the claims
  are settled at fuels large enough that this never triggers).
-/

/-- A stored value; `none` models JavaScript `undefined`. -/
abbrev Val := Option Nat

/-- An entry of a cell's subscriber sequence (spec §3 Notifier): either an
external subscriber callback, identified by id, or a dependent computed cell
that registered itself during its recompute (spec §4.2 step 2). -/
inductive Listener where
  | ext : Nat → Listener
  | comp : Nat → Listener
deriving DecidableEq, Repr

/-- Modelled from the spec: compute functions (`computeFn`, spec §3) are
embedded as expressions over the cell heap; `read i` is a call of the callable
cell `i` with zero arguments, as in `() => a() * 2`. -/
inductive Expr where
  | const : Nat → Expr
  | read : Nat → Expr
  | add : Expr → Expr → Expr
  | mul : Expr → Expr → Expr
deriving DecidableEq, Repr

/-- A cell of the dependency graph (spec §3): an Observable Cell has
`compute = none`; a Computed Cell stores its compute function and its
current dependency set alongside its cached value. Both kinds carry the
subscriber sequence of their embedded Notifier. -/
structure Cell where
  value : Val
  compute : Option Expr
  deps : List Nat
  subs : List Listener
deriving DecidableEq, Repr

/-- The whole engine state: the cell heap plus the notification log.
`log` entries are `(subscriberId, newValue, oldValue)` in invocation order. -/
structure State where
  cells : List Cell
  log : List (Nat × Val × Val)
deriving DecidableEq, Repr

def getCell (s : State) (i : Nat) : Option Cell :=
  s.cells[i]?

def setCell (s : State) (i : Nat) (c : Cell) : State :=
  { s with cells := s.cells.set i c }

def modifyCell (s : State) (i : Nat) (f : Cell → Cell) : State :=
  match getCell s i with
  | none => s
  | some c => setCell s i (f c)

def setCellValue (s : State) (i : Nat) (v : Val) : State :=
  modifyCell s i (fun c => { c with value := v })

def setCellDeps (s : State) (i : Nat) (d : List Nat) : State :=
  modifyCell s i (fun c => { c with deps := d })

/-- The current value of cell `i`; reading a missing cell yields `undefined`. -/
def readCell (s : State) (i : Nat) : Val :=
  match getCell s i with
  | none => none
  | some c => c.value

/-- The subscriber sequence of cell `i`. -/
def subsAt (s : State) (i : Nat) : List Listener :=
  match getCell s i with
  | none => []
  | some c => c.subs

/-- Record one subscriber invocation `subscriber(newValue, oldValue)`. -/
def pushLog (s : State) (sid : Nat) (nv ov : Val) : State :=
  { s with log := s.log ++ [(sid, nv, ov)] }

/-- Modelled from the spec: idempotent dependency registration (§4.1:
registering the same dependency twice must not duplicate propagation). -/
def addListenerIdem (s : State) (i : Nat) (l : Listener) : State :=
  modifyCell s i (fun c => if l ∈ c.subs then c else { c with subs := c.subs ++ [l] })

/-- Remove the first matching entry of a cell's subscriber sequence
(spec §4.3: removal of an absent subscriber is a no-op, not a failure). -/
def removeListener (s : State) (i : Nat) (l : Listener) : State :=
  modifyCell s i (fun c => { c with subs := c.subs.erase l })

/-- Modelled from the spec: §4.2 step 4 — after a recompute of cell `i`,
unsubscribe `i` from dependencies no longer present and subscribe it to newly
present ones. -/
def rewire (s : State) (i : Nat) (oldDeps freshDeps : List Nat) : State :=
  let s1 := oldDeps.foldl
    (fun acc d => if d ∈ freshDeps then acc else removeListener acc d (.comp i)) s
  freshDeps.foldl
    (fun acc d => if d ∈ oldDeps then acc else addListenerIdem acc d (.comp i)) s1

/-- Modelled from the spec: evaluation of a compute function. Returns the
value together with the list of cells read, in read order — the dependencies
the ambient tracker (§4.4) would attribute to the recomputing cell. A read of
a computed cell returns its cached value with no recompute (§4.2).
Arithmetic on `undefined` yields `undefined`. -/
def evalExpr (s : State) : Expr → Val × List Nat
  | .const n => (some n, [])
  | .read i => (readCell s i, [i])
  | .add a b =>
    let pa := evalExpr s a
    let pb := evalExpr s b
    (match pa.1, pb.1 with
     | some x, some y => some (x + y)
     | _, _ => none, pa.2 ++ pb.2)
  | .mul a b =>
    let pa := evalExpr s a
    let pb := evalExpr s b
    (match pa.1, pb.1 with
     | some x, some y => some (x * y)
     | _, _ => none, pa.2 ++ pb.2)

/-- A pending step of the synchronous propagation cascade (spec §2): an
external write to a cell, a fan-out over a snapshot of a subscriber sequence,
or the recompute of a computed cell. -/
inductive Step where
  | write : Nat → Val → Step
  | fan : List Listener → Val → Val → Step
  | recomp : Nat → Step
deriving DecidableEq, Repr

/-- Modelled from the spec: the synchronous write / fan-out / recompute
cascade of §2, §4.1-§4.3, as a fuel-indexed interpreter (`none` = fuel ran
out; all propagation is otherwise exactly the spec's).

* `write i v` (§4.1): stores `v`; if the previous value differs, fans out
  over a snapshot of the subscriber sequence with `(newValue, oldValue)`;
  equal-value writes fire no notification (change suppression). Writing a
  computed cell is a no-op: computeds are read-only from the outside
  (§4.2, §6) — only recompute may change their value.
* `fan subs nv ov` (§4.3): invokes subscribers in registration order over
  the fixed snapshot; an external subscriber is logged, a dependent
  computed is recomputed.
* `recomp i` (§4.2): re-runs the compute function, rewires the dependency
  set wholesale, and if the fresh value differs from the cached one,
  updates it and fans out over this cell's own subscribers. -/
def run : Nat → State → Step → Option State
  | 0, _, _ => none
  | fuel + 1, s, .write i v =>
    match getCell s i with
    | none => none
    | some c =>
      if c.compute.isSome then some s
      else
        let old := c.value
        let s1 := setCellValue s i v
        if old = v then some s1
        else run fuel s1 (.fan c.subs v old)
  | _ + 1, s, .fan [] _ _ => some s
  | fuel + 1, s, .fan (l :: rest) nv ov =>
    match l with
    | .ext sid => run fuel (pushLog s sid nv ov) (.fan rest nv ov)
    | .comp cid =>
      match run fuel s (.recomp cid) with
      | none => none
      | some s2 => run fuel s2 (.fan rest nv ov)
  | fuel + 1, s, .recomp i =>
    match getCell s i with
    | none => none
    | some c =>
      match c.compute with
      | none => some s
      | some e =>
        let p := evalExpr s e
        let fresh := p.2.dedup
        let s1 := setCellDeps (rewire s i c.deps fresh) i fresh
        let s2 := setCellValue s1 i p.1
        if c.value = p.1 then some s2
        else run fuel s2 (.fan c.subs p.1 c.value)

/-- Modelled from the spec: `trkl(initValue)` — allocate a fresh Observable
Cell holding `initValue`, returning the new state and the cell's address. -/
def trklMake (s : State) (v : Val) : State × Nat :=
  ({ s with cells := s.cells ++ [{ value := v, compute := none, deps := [], subs := [] }] },
   s.cells.length)

/-- Modelled from the spec: `trkl.computed(fn)` — allocate a Computed Cell
bound to `fn` and perform the initial synchronous recompute that populates
`cachedValue` and `dependencies` (§4.2). -/
def trklComputed (fuel : Nat) (s : State) (e : Expr) : Option (State × Nat) :=
  let i := s.cells.length
  let s1 : State :=
    { s with cells := s.cells ++ [{ value := none, compute := some e, deps := [], subs := [] }] }
  (run fuel s1 (.recomp i)).map (fun s2 => (s2, i))

/-- Modelled from the spec: `observable.subscribe(subscriber, immediate)`
(§4.3) — append the subscriber (duplicates allowed, §3) and, when `immediate`
is true, synchronously invoke it once as `subscriber(currentValue, undefined)`
before returning. -/
def trklSubscribe (s : State) (i : Nat) (sid : Nat) (immediate : Bool) : State :=
  let s1 := modifyCell s i (fun c => { c with subs := c.subs ++ [.ext sid] })
  if immediate then pushLog s1 sid (readCell s i) none else s1

/-- Modelled from the spec: `observable.unsubscribe(subscriber)` (§4.3) —
remove the first matching entry; removing an absent subscriber is a no-op. -/
def trklUnsubscribe (s : State) (i : Nat) (sid : Nat) : State :=
  removeListener s i (.ext sid)

/-- A store of `src/index.ts`: a callable wrapper holding its underlying trkl
observable in the mutable `trkl` property (line 27 / line 64). Operations look
the property up at each invocation, as the source's `store.trkl` accesses do. -/
structure Konbini where
  trkl : Nat
deriving DecidableEq, Repr

/-- `src/index.ts` line 58: invoking the store with zero arguments returns
`store.trkl()` — a read of the underlying observable. -/
def Konbini.call0 (s : State) (k : Konbini) : Val :=
  readCell s k.trkl

/-- `src/index.ts` lines 60-62: invoking the store with one argument performs
`store.trkl(value)` and returns the argument `value`. -/
def Konbini.call1 (fuel : Nat) (s : State) (k : Konbini) (v : Val) : Option (State × Val) :=
  (run fuel s (.write k.trkl v)).map (fun s2 => (s2, v))

/-- `src/index.ts` line 65: `store.set = newValue => store(newValue)`. -/
def Konbini.set (fuel : Nat) (s : State) (k : Konbini) (v : Val) : Option (State × Val) :=
  Konbini.call1 fuel s k v

/-- `src/index.ts` line 67: `store.subscribe` calls
`store.trkl.subscribe(subscriber, true)` — always with immediate invocation. -/
def Konbini.subscribe (s : State) (k : Konbini) (sid : Nat) : State :=
  trklSubscribe s k.trkl sid true

/-- `src/index.ts` line 68: the closure returned from `subscribe` calls
`store.trkl.unsubscribe(subscriber)` when invoked. -/
def Konbini.unsub (s : State) (k : Konbini) (sid : Nat) : State :=
  trklUnsubscribe s k.trkl sid

/-- `src/index.ts` lines 55-70: `konbini(value?)` — allocate a trkl observable
holding the (possibly absent, that is `undefined`) initial value and wrap it. -/
def konbini (s : State) (v : Val) : State × Konbini :=
  let p := trklMake s v
  (p.1, ⟨p.2⟩)

/-- `src/index.ts` lines 86-92: `computed(fn)` — create a placeholder store via
`konbini()`, then replace its `trkl` property with `trkl.computed(fn)`; the
placeholder observable allocated by the inner `konbini()` call is discarded. -/
def computed (fuel : Nat) (s : State) (e : Expr) : Option (State × Konbini) :=
  let p := konbini s none
  (trklComputed fuel p.1 e).map (fun q => (q.1, ⟨q.2⟩))

/-- The sub-sequence of the notification log addressed to subscriber `sid`. -/
def logFor (s : State) (sid : Nat) : List (Nat × Val × Val) :=
  s.log.filter (fun e => e.1 = sid)

/-- The compute function slot of cell `j` (`some none` = an Observable Cell,
`some (some e)` = a Computed Cell, `none` = no such cell). -/
def compAt (s : State) (j : Nat) : Option (Option Expr) :=
  (getCell s j).map Cell.compute

/-- Subscriber `sid` is registered at no cell of the heap. -/
def noExtIn (s : State) (sid : Nat) : Prop :=
  ∀ j, Listener.ext sid ∉ subsAt s j

/-- Whether a `Step` is an external write. -/
def Step.isWrite : Step → Bool
  | .write _ _ => true
  | _ => false

/-- A fan-out snapshot inside the step does not mention subscriber `sid`. -/
def Step.fanOk (sid : Nat) : Step → Prop
  | .fan subs _ _ => Listener.ext sid ∉ subs
  | _ => True

/-- The empty engine state. -/
def emptyState : State := ⟨[], []⟩

/-- Example heap of the `computed` doc comment: `const a = konbini(1)`. -/
def exA : State × Konbini := konbini emptyState (some 1)

/-- `const b = computed(() => a() * 2)` over `exA`. -/
def exB : Option (State × Konbini) :=
  computed 8 exA.1 (.mul (.read exA.2.trkl) (.const 2))

/-- A one-cell heap holding `3`, used by concrete witnesses. -/
def oneCell : State × Konbini := konbini emptyState (some 3)

/-- `oneCell` after `store.subscribe` with subscriber id `9`. -/
def subbed : State := Konbini.subscribe oneCell.1 oneCell.2 9

/-- The heap after the C4 witness write. -/
def c4post : State := ⟨[⟨some 7, none, [], []⟩], []⟩

/-- Heap after `computed` in the witness scenario: cell 0 is `a` holding 1
with the computed registered, cell 1 the discarded placeholder, cell 2 the
computed observable caching 2. -/
def c1post : State :=
  ⟨[⟨some 1, none, [], [.comp 2]⟩, ⟨none, none, [], []⟩,
    ⟨some 2, some (.mul (.read 0) (.const 2)), [0], []⟩], []⟩

/-- The heap of the C7 witness after unsubscribing and then writing 5. -/
def c7post : State := ⟨[⟨some 5, none, [], []⟩], [(9, some 3, none)]⟩

theorem getCell_modifyCell_self (s : State) (i : Nat) (f : Cell → Cell) :
    getCell (modifyCell s i f) i = (getCell s i).map f := by
  unfold modifyCell
  cases h : getCell s i with
  | none => simp [h]
  | some c =>
    show getCell (setCell s i (f c)) i = some (f c)
    unfold getCell at h
    unfold getCell setCell
    simp [List.getElem?_set_self', h]

theorem getCell_modifyCell_ne (s : State) (i : Nat) (f : Cell → Cell) (j : Nat) (h : j ≠ i) :
    getCell (modifyCell s i f) j = getCell s j := by
  unfold modifyCell
  cases hg : getCell s i with
  | none => rfl
  | some c =>
    show getCell (setCell s i (f c)) j = getCell s j
    unfold getCell setCell
    exact List.getElem?_set_ne (Ne.symm h)

theorem log_modifyCell (s : State) (i : Nat) (f : Cell → Cell) :
    (modifyCell s i f).log = s.log := by
  unfold modifyCell
  cases getCell s i <;> rfl

theorem length_modifyCell (s : State) (i : Nat) (f : Cell → Cell) :
    (modifyCell s i f).cells.length = s.cells.length := by
  unfold modifyCell
  cases getCell s i
  · rfl
  · simp [setCell]

theorem compAt_modifyCell (s : State) (i : Nat) (f : Cell → Cell) (j : Nat)
    (hf : ∀ c, (f c).compute = c.compute) :
    compAt (modifyCell s i f) j = compAt s j := by
  by_cases hj : j = i
  · subst hj
    unfold compAt
    rw [getCell_modifyCell_self]
    cases getCell s j <;> simp [hf]
  · unfold compAt
    rw [getCell_modifyCell_ne s i f j hj]

theorem readCell_modifyCell_value (s : State) (i : Nat) (f : Cell → Cell) (j : Nat)
    (hf : ∀ c, (f c).value = c.value) :
    readCell (modifyCell s i f) j = readCell s j := by
  by_cases hj : j = i
  · subst hj
    unfold readCell
    rw [getCell_modifyCell_self]
    cases getCell s j <;> simp [hf]
  · unfold readCell
    rw [getCell_modifyCell_ne s i f j hj]

theorem readCell_modifyCell_ne (s : State) (i : Nat) (f : Cell → Cell) (j : Nat) (h : j ≠ i) :
    readCell (modifyCell s i f) j = readCell s j := by
  unfold readCell
  rw [getCell_modifyCell_ne s i f j h]

theorem subsAt_modifyCell_ne (s : State) (i : Nat) (f : Cell → Cell) (j : Nat) (h : j ≠ i) :
    subsAt (modifyCell s i f) j = subsAt s j := by
  unfold subsAt
  rw [getCell_modifyCell_ne s i f j h]

theorem readCell_setCellValue_self (s : State) (i : Nat) (v : Val)
    (h : (getCell s i).isSome) : readCell (setCellValue s i v) i = v := by
  unfold readCell setCellValue
  rw [getCell_modifyCell_self]
  cases hg : getCell s i with
  | none => rw [hg] at h; simp at h
  | some c => simp

theorem getCell_pushLog (s : State) (sid : Nat) (nv ov : Val) (j : Nat) :
    getCell (pushLog s sid nv ov) j = getCell s j := rfl

theorem log_pushLog (s : State) (sid : Nat) (nv ov : Val) :
    (pushLog s sid nv ov).log = s.log ++ [(sid, nv, ov)] := rfl

theorem logFor_pushLog_ne (s : State) (sid sid2 : Nat) (nv ov : Val) (h : sid2 ≠ sid) :
    logFor (pushLog s sid2 nv ov) sid = logFor s sid := by
  unfold logFor pushLog
  simp [List.filter_append, h]


theorem modifyCell_missing (s : State) (i : Nat) (f : Cell → Cell)
    (hg : getCell s i = none) : modifyCell s i f = s := by
  unfold modifyCell
  rw [hg]

theorem subsAt_modifyCell_self (s : State) (i : Nat) (f : Cell → Cell) (c : Cell)
    (hg : getCell s i = some c) : subsAt (modifyCell s i f) i = (f c).subs := by
  unfold subsAt
  rw [getCell_modifyCell_self, hg]
  rfl

theorem subsAt_modifyCell_subsPres (s : State) (i : Nat) (f : Cell → Cell) (j : Nat)
    (hf : ∀ c, (f c).subs = c.subs) :
    subsAt (modifyCell s i f) j = subsAt s j := by
  by_cases hj : j = i
  · subst hj
    unfold subsAt
    rw [getCell_modifyCell_self]
    cases getCell s j <;> simp [hf]
  · rw [subsAt_modifyCell_ne s i f j hj]

theorem subsAt_removeListener_mem (s : State) (i : Nat) (l : Listener) (j : Nat) (x : Listener)
    (h : x ∈ subsAt (removeListener s i l) j) : x ∈ subsAt s j := by
  by_cases hj : j = i
  · subst hj
    cases hg : getCell s j with
    | none =>
      unfold removeListener at h
      rwa [modifyCell_missing s j _ hg] at h
    | some c =>
      unfold removeListener at h
      rw [subsAt_modifyCell_self s j _ c hg] at h
      unfold subsAt
      rw [hg]
      exact List.mem_of_mem_erase h
  · unfold removeListener at h
    rwa [subsAt_modifyCell_ne s i _ j hj] at h

theorem subsAt_addListenerIdem_mem (s : State) (i : Nat) (l : Listener) (j : Nat) (x : Listener)
    (hx : x ≠ l) (h : x ∈ subsAt (addListenerIdem s i l) j) : x ∈ subsAt s j := by
  by_cases hj : j = i
  · subst hj
    cases hg : getCell s j with
    | none =>
      unfold addListenerIdem at h
      rwa [modifyCell_missing s j _ hg] at h
    | some c =>
      unfold addListenerIdem at h
      rw [subsAt_modifyCell_self s j _ c hg] at h
      unfold subsAt
      rw [hg]
      by_cases hmem : l ∈ c.subs
      · simpa [hmem] using h
      · simp only [hmem, if_false] at h
        rcases List.mem_append.mp h with h1 | h1
        · exact h1
        · exact absurd (List.mem_singleton.mp h1) hx
  · unfold addListenerIdem at h
    rwa [subsAt_modifyCell_ne s i _ j hj] at h

theorem foldl_state_pres {α : Type} (P : State → Prop) (g : State → α → State)
    (hg : ∀ t d, P t → P (g t d)) :
    ∀ (l : List α) (t : State), P t → P (l.foldl g t) := by
  intro l
  induction l with
  | nil => intro t h; exact h
  | cons d rest ih => intro t h; exact ih (g t d) (hg t d h)

/-- The dependency rewiring of a recompute (spec §4.2 step 4) only edits
subscriber sequences, and only by adding the recomputing cell itself as an
internal listener or by removing internal listeners: values, compute slots,
the log and the heap size are untouched, and no external subscriber appears
that was not registered before. -/
theorem rewire_pres (s : State) (i : Nat) (o fr : List Nat) :
    (∀ j, compAt (rewire s i o fr) j = compAt s j) ∧
    (∀ j, readCell (rewire s i o fr) j = readCell s j) ∧
    (rewire s i o fr).log = s.log ∧
    (rewire s i o fr).cells.length = s.cells.length ∧
    (∀ j sid, Listener.ext sid ∈ subsAt (rewire s i o fr) j → Listener.ext sid ∈ subsAt s j) := by
  unfold rewire
  have hrem : ∀ (t : State) (d : Nat),
      ((∀ j, compAt t j = compAt s j) ∧ (∀ j, readCell t j = readCell s j) ∧
        t.log = s.log ∧ t.cells.length = s.cells.length ∧
        (∀ j sid, Listener.ext sid ∈ subsAt t j → Listener.ext sid ∈ subsAt s j)) →
      ((∀ j, compAt (if d ∈ fr then t else removeListener t d (.comp i)) j = compAt s j) ∧
        (∀ j, readCell (if d ∈ fr then t else removeListener t d (.comp i)) j = readCell s j) ∧
        (if d ∈ fr then t else removeListener t d (.comp i)).log = s.log ∧
        (if d ∈ fr then t else removeListener t d (.comp i)).cells.length = s.cells.length ∧
        (∀ j sid, Listener.ext sid ∈ subsAt (if d ∈ fr then t else removeListener t d (.comp i)) j →
          Listener.ext sid ∈ subsAt s j)) := by
    intro t d ht
    by_cases hd : d ∈ fr
    · simpa [hd] using ht
    · simp only [hd, if_false]
      refine ⟨fun j => ?_, fun j => ?_, ?_, ?_, fun j sid hm => ?_⟩
      · unfold removeListener
        rw [compAt_modifyCell t d (fun c => { c with subs := c.subs.erase (Listener.comp i) }) j
          (fun c => rfl)]
        exact ht.1 j
      · unfold removeListener
        rw [readCell_modifyCell_value t d
          (fun c => { c with subs := c.subs.erase (Listener.comp i) }) j (fun c => rfl)]
        exact ht.2.1 j
      · unfold removeListener
        rw [log_modifyCell]
        exact ht.2.2.1
      · unfold removeListener
        rw [length_modifyCell]
        exact ht.2.2.2.1
      · exact ht.2.2.2.2 j sid (subsAt_removeListener_mem t d _ j _ hm)
  have hadd : ∀ (t : State) (d : Nat),
      ((∀ j, compAt t j = compAt s j) ∧ (∀ j, readCell t j = readCell s j) ∧
        t.log = s.log ∧ t.cells.length = s.cells.length ∧
        (∀ j sid, Listener.ext sid ∈ subsAt t j → Listener.ext sid ∈ subsAt s j)) →
      ((∀ j, compAt (if d ∈ o then t else addListenerIdem t d (.comp i)) j = compAt s j) ∧
        (∀ j, readCell (if d ∈ o then t else addListenerIdem t d (.comp i)) j = readCell s j) ∧
        (if d ∈ o then t else addListenerIdem t d (.comp i)).log = s.log ∧
        (if d ∈ o then t else addListenerIdem t d (.comp i)).cells.length = s.cells.length ∧
        (∀ j sid, Listener.ext sid ∈ subsAt (if d ∈ o then t else addListenerIdem t d (.comp i)) j →
          Listener.ext sid ∈ subsAt s j)) := by
    intro t d ht
    by_cases hd : d ∈ o
    · simpa [hd] using ht
    · simp only [hd, if_false]
      refine ⟨fun j => ?_, fun j => ?_, ?_, ?_, fun j sid hm => ?_⟩
      · unfold addListenerIdem
        rw [compAt_modifyCell t d
          (fun c => if Listener.comp i ∈ c.subs then c else { c with subs := c.subs ++ [.comp i] })
          j (fun c => by by_cases hc : Listener.comp i ∈ c.subs <;> simp [hc])]
        exact ht.1 j
      · unfold addListenerIdem
        rw [readCell_modifyCell_value t d
          (fun c => if Listener.comp i ∈ c.subs then c else { c with subs := c.subs ++ [.comp i] })
          j (fun c => by by_cases hc : Listener.comp i ∈ c.subs <;> simp [hc])]
        exact ht.2.1 j
      · unfold addListenerIdem
        rw [log_modifyCell]
        exact ht.2.2.1
      · unfold addListenerIdem
        rw [length_modifyCell]
        exact ht.2.2.2.1
      · exact ht.2.2.2.2 j sid
          (subsAt_addListenerIdem_mem t d _ j _ (by intro hx; cases hx) hm)
  refine foldl_state_pres _ _ hadd fr _ (foldl_state_pres _ _ hrem o s ?_)
  exact ⟨fun j => rfl, fun j => rfl, rfl, rfl, fun j sid hm => hm⟩

theorem compAt_pushLog (s : State) (sid : Nat) (nv ov : Val) (j : Nat) :
    compAt (pushLog s sid nv ov) j = compAt s j := rfl

theorem readCell_pushLog (s : State) (sid : Nat) (nv ov : Val) (j : Nat) :
    readCell (pushLog s sid nv ov) j = readCell s j := rfl

theorem subsAt_pushLog (s : State) (sid : Nat) (nv ov : Val) (j : Nat) :
    subsAt (pushLog s sid nv ov) j = subsAt s j := rfl

theorem compAt_setCellValue (s : State) (i : Nat) (v : Val) (j : Nat) :
    compAt (setCellValue s i v) j = compAt s j :=
  compAt_modifyCell s i (fun c => { c with value := v }) j (fun _ => rfl)

theorem compAt_setCellDeps (s : State) (i : Nat) (d : List Nat) (j : Nat) :
    compAt (setCellDeps s i d) j = compAt s j :=
  compAt_modifyCell s i (fun c => { c with deps := d }) j (fun _ => rfl)

theorem readCell_setCellDeps (s : State) (i : Nat) (d : List Nat) (j : Nat) :
    readCell (setCellDeps s i d) j = readCell s j :=
  readCell_modifyCell_value s i (fun c => { c with deps := d }) j (fun _ => rfl)

theorem readCell_setCellValue_ne (s : State) (i : Nat) (v : Val) (j : Nat) (h : j ≠ i) :
    readCell (setCellValue s i v) j = readCell s j :=
  readCell_modifyCell_ne s i _ j h

theorem length_setCellValue (s : State) (i : Nat) (v : Val) :
    (setCellValue s i v).cells.length = s.cells.length :=
  length_modifyCell s i _

theorem length_setCellDeps (s : State) (i : Nat) (d : List Nat) :
    (setCellDeps s i d).cells.length = s.cells.length :=
  length_modifyCell s i _

theorem log_setCellValue (s : State) (i : Nat) (v : Val) :
    (setCellValue s i v).log = s.log :=
  log_modifyCell s i _

theorem log_setCellDeps (s : State) (i : Nat) (d : List Nat) :
    (setCellDeps s i d).log = s.log :=
  log_modifyCell s i _

theorem subsAt_setCellValue (s : State) (i : Nat) (v : Val) (j : Nat) :
    subsAt (setCellValue s i v) j = subsAt s j :=
  subsAt_modifyCell_subsPres s i (fun c => { c with value := v }) j (fun _ => rfl)

theorem subsAt_setCellDeps (s : State) (i : Nat) (d : List Nat) (j : Nat) :
    subsAt (setCellDeps s i d) j = subsAt s j :=
  subsAt_modifyCell_subsPres s i (fun c => { c with deps := d }) j (fun _ => rfl)

/-- No step of the propagation cascade changes a cell's compute function or
the heap size, and no step other than the top-level external write changes
the value of any Observable Cell (a recompute writes only its Computed Cell). -/
theorem run_pres : ∀ (fuel : Nat) (s : State) (t : Step) (s2 : State),
    run fuel s t = some s2 →
    (∀ j, compAt s2 j = compAt s j) ∧ s2.cells.length = s.cells.length ∧
    (t.isWrite = false → ∀ j, compAt s j = some none → readCell s2 j = readCell s j) := by
  intro fuel
  induction fuel with
  | zero => intro s t s2 h; simp [run] at h
  | succ n ih =>
    intro s t s2 h
    cases t with
    | write i v =>
      simp only [run] at h
      split at h
      · exact absurd h (by simp)
      next c hg =>
        by_cases hc : c.compute.isSome
        · simp only [hc, if_true] at h
          cases h
          exact ⟨fun j => rfl, rfl, fun hw => by simp [Step.isWrite] at hw⟩
        · by_cases he : c.value = v
          · simp only [hc, he, if_true, if_false, Bool.false_eq_true] at h
            cases h
            exact ⟨compAt_setCellValue s i v, length_setCellValue s i v,
              fun hw => by simp [Step.isWrite] at hw⟩
          · simp only [hc, he, if_false, Bool.false_eq_true] at h
            have hfan := ih _ _ _ h
            refine ⟨fun j => (hfan.1 j).trans (compAt_setCellValue s i v j),
              hfan.2.1.trans (length_setCellValue s i v),
              fun hw => by simp [Step.isWrite] at hw⟩
    | fan subs nv ov =>
      cases subs with
      | nil =>
        simp only [run] at h
        cases h
        exact ⟨fun j => rfl, rfl, fun _ j _ => rfl⟩
      | cons l rest =>
        cases l with
        | ext sid =>
          simp only [run] at h
          have hrec := ih _ _ _ h
          exact ⟨hrec.1, hrec.2.1, fun _ j hp => hrec.2.2 rfl j hp⟩
        | comp cid =>
          simp only [run] at h
          split at h
          · exact absurd h (by simp)
          next s3 hr =>
            have h1 := ih _ _ _ hr
            have h2 := ih _ _ _ h
            refine ⟨fun j => (h2.1 j).trans (h1.1 j), h2.2.1.trans h1.2.1, fun _ j hp => ?_⟩
            have hp3 : compAt s3 j = some none := (h1.1 j).trans hp
            exact (h2.2.2 rfl j hp3).trans (h1.2.2 rfl j hp)
    | recomp i =>
      simp only [run] at h
      split at h
      · exact absurd h (by simp)
      next c hg =>
        split at h
        next hce =>
          cases h
          exact ⟨fun j => rfl, rfl, fun _ j _ => rfl⟩
        next e hce =>
          have hci : compAt s i = some (some e) := by
            simp [compAt, hg, hce]
          have hre := rewire_pres s i c.deps (evalExpr s e).2.dedup
          by_cases hv : c.value = (evalExpr s e).1
          · simp only [hv, if_true] at h
            cases h
            refine ⟨fun j => ?_, ?_, fun _ j hp => ?_⟩
            · rw [compAt_setCellValue, compAt_setCellDeps, hre.1 j]
            · rw [length_setCellValue, length_setCellDeps, hre.2.2.2.1]
            · have hij : j ≠ i := by
                intro hji
                rw [hji, hci] at hp
                simp at hp
              rw [readCell_setCellValue_ne _ i _ j hij, readCell_setCellDeps, hre.2.1 j]
          · simp only [hv, if_false, Bool.false_eq_true] at h
            have hfan := ih _ _ _ h
            refine ⟨fun j => ?_, ?_, fun _ j hp => ?_⟩
            · rw [hfan.1 j, compAt_setCellValue, compAt_setCellDeps, hre.1 j]
            · rw [hfan.2.1, length_setCellValue, length_setCellDeps, hre.2.2.2.1]
            · have hij : j ≠ i := by
                intro hji
                rw [hji, hci] at hp
                simp at hp
              have hcomp4 : compAt (setCellValue (setCellDeps (rewire s i c.deps
                  (evalExpr s e).2.dedup) i (evalExpr s e).2.dedup) i (evalExpr s e).1) j
                  = some none := by
                rw [compAt_setCellValue, compAt_setCellDeps, hre.1 j]
                exact hp
              rw [hfan.2.2 rfl j hcomp4, readCell_setCellValue_ne _ i _ j hij,
                readCell_setCellDeps, hre.2.1 j]

theorem logFor_pushLog_self (s : State) (sid : Nat) (nv ov : Val) :
    logFor (pushLog s sid nv ov) sid = logFor s sid ++ [(sid, nv, ov)] := by
  unfold logFor pushLog
  simp [List.filter_append]

/-- A cascade run from a state where subscriber `sid` is registered nowhere,
whose pending fan-out snapshot (if any) does not mention `sid` either, never
notifies `sid` and never registers it: unsubscribed subscribers receive no
further notifications. -/
theorem run_noExt_log : ∀ (fuel : Nat) (s : State) (t : Step) (s2 : State) (sid : Nat),
    run fuel s t = some s2 → noExtIn s sid → Step.fanOk sid t →
    noExtIn s2 sid ∧ logFor s2 sid = logFor s sid := by
  intro fuel
  induction fuel with
  | zero => intro s t s2 sid h; simp [run] at h
  | succ n ih =>
    intro s t s2 sid h hno hok
    cases t with
    | write i v =>
      simp only [run] at h
      split at h
      · exact absurd h (by simp)
      next c hg =>
        by_cases hc : c.compute.isSome
        · simp only [hc, if_true] at h
          cases h
          exact ⟨hno, rfl⟩
        · have hsubs : subsAt s i = c.subs := by
            unfold subsAt
            rw [hg]
          have hnos1 : noExtIn (setCellValue s i v) sid := by
            intro j
            rw [subsAt_setCellValue]
            exact hno j
          by_cases he : c.value = v
          · simp only [hc, he, if_true, if_false, Bool.false_eq_true] at h
            cases h
            refine ⟨hnos1, ?_⟩
            unfold logFor
            rw [log_setCellValue]
          · simp only [hc, he, if_false, Bool.false_eq_true] at h
            have hokfan : Step.fanOk sid (.fan c.subs v c.value) := by
              unfold Step.fanOk
              rw [← hsubs]
              exact hno i
            have hrec := ih _ _ _ _ h hnos1 hokfan
            refine ⟨hrec.1, hrec.2.trans ?_⟩
            unfold logFor
            rw [log_setCellValue]
    | fan subs nv ov =>
      cases subs with
      | nil =>
        simp only [run] at h
        cases h
        exact ⟨hno, rfl⟩
      | cons l rest =>
        cases l with
        | ext sid2 =>
          simp only [run] at h
          have hne : sid2 ≠ sid := by
            intro he
            subst he
            exact hok (List.mem_cons_self _ _)
          have hrest : Step.fanOk sid (.fan rest nv ov) :=
            fun hm => hok (List.mem_cons_of_mem _ hm)
          have hnop : noExtIn (pushLog s sid2 nv ov) sid := by
            intro j
            rw [subsAt_pushLog]
            exact hno j
          have hrec := ih _ _ _ _ h hnop hrest
          exact ⟨hrec.1, hrec.2.trans (logFor_pushLog_ne s sid sid2 nv ov hne)⟩
        | comp cid =>
          simp only [run] at h
          split at h
          · exact absurd h (by simp)
          next s3 hr =>
            have h1 := ih _ _ _ _ hr hno trivial
            have hrest : Step.fanOk sid (.fan rest nv ov) :=
              fun hm => hok (List.mem_cons_of_mem _ hm)
            have h2 := ih _ _ _ _ h h1.1 hrest
            exact ⟨h2.1, h2.2.trans h1.2⟩
    | recomp i =>
      simp only [run] at h
      split at h
      · exact absurd h (by simp)
      next c hg =>
        split at h
        next hce =>
          cases h
          exact ⟨hno, rfl⟩
        next e hce =>
          have hsubs : subsAt s i = c.subs := by
            unfold subsAt
            rw [hg]
          have hre := rewire_pres s i c.deps (evalExpr s e).2.dedup
          have hnos4 : noExtIn (setCellValue (setCellDeps (rewire s i c.deps
              (evalExpr s e).2.dedup) i (evalExpr s e).2.dedup) i (evalExpr s e).1) sid := by
            intro j hm
            rw [subsAt_setCellValue, subsAt_setCellDeps] at hm
            exact hno j (hre.2.2.2.2 j sid hm)
          have hlog4 : logFor (setCellValue (setCellDeps (rewire s i c.deps
              (evalExpr s e).2.dedup) i (evalExpr s e).2.dedup) i (evalExpr s e).1) sid
              = logFor s sid := by
            unfold logFor
            rw [log_setCellValue, log_setCellDeps, hre.2.2.1]
          by_cases hv : c.value = (evalExpr s e).1
          · simp only [hv, if_true] at h
            cases h
            exact ⟨hnos4, hlog4⟩
          · simp only [hv, if_false, Bool.false_eq_true] at h
            have hokfan : Step.fanOk sid (.fan c.subs (evalExpr s e).1 c.value) := by
              unfold Step.fanOk
              rw [← hsubs]
              exact hno i
            have hrec := ih _ _ _ _ h hnos4 hokfan
            exact ⟨hrec.1, hrec.2.trans hlog4⟩

/-- A fan-out over a snapshot made only of external subscribers appends
exactly one `(sid, newValue, oldValue)` notification per subscriber, in
registration order. -/
theorem run_fan_ext : ∀ (sids : List Nat) (fuel : Nat) (s : State) (nv ov : Val),
    sids.length < fuel →
    run fuel s (.fan (sids.map Listener.ext) nv ov)
      = some { s with log := s.log ++ sids.map (fun sid => (sid, nv, ov)) } := by
  intro sids
  induction sids with
  | nil =>
    intro fuel s nv ov hf
    match fuel, hf with
    | n + 1, _ => simp [run]
  | cons sid rest ih =>
    intro fuel s nv ov hf
    match fuel, hf with
    | n + 1, hf =>
      have hlt : rest.length < n := by
        simp only [List.length_cons] at hf
        omega
      simp only [List.map_cons, run]
      rw [ih n (pushLog s sid nv ov) nv ov hlt]
      simp [pushLog]

theorem getCell_konbini (s : State) (v : Val) :
    getCell (konbini s v).1 (konbini s v).2.trkl = some ⟨v, none, [], []⟩ := by
  unfold konbini trklMake getCell
  exact List.getElem?_concat_length s.cells _

/-- C2: a store created by `konbini` dispatches on arity (`src/index.ts`
lines 57-63): the zero-argument call returns the current value; the
one-argument call writes the argument into the underlying observable and
returns that argument. -/
theorem konbini_arity_dispatch (s : State) (v0 v : Val) (fuel : Nat) :
    Konbini.call0 (konbini s v0).1 (konbini s v0).2 = v0 ∧
    Konbini.call1 (fuel + 2) (konbini s v0).1 (konbini s v0).2 v
      = some (setCellValue (konbini s v0).1 (konbini s v0).2.trkl v, v) ∧
    readCell (setCellValue (konbini s v0).1 (konbini s v0).2.trkl v) (konbini s v0).2.trkl
      = v := by
  have hg := getCell_konbini s v0
  refine ⟨?_, ?_, ?_⟩
  · unfold Konbini.call0 readCell
    rw [hg]
  · unfold Konbini.call1
    simp only [run, hg]
    by_cases he : v0 = v <;> simp [he, run]
  · exact readCell_setCellValue_self _ _ v (by rw [hg]; rfl)

/-- C4: read-after-write — writing `v` to an observable store and then
reading gives back `v`, whatever propagation the write triggered; the write
call also returns `v`. -/
theorem read_after_write (fuel : Nat) (s : State) (k : Konbini) (v : Val) (s2 : State) (r : Val)
    (hplain : compAt s k.trkl = some none)
    (h : Konbini.call1 fuel s k v = some (s2, r)) :
    r = v ∧ Konbini.call0 s2 k = v := by
  unfold Konbini.call1 at h
  cases hr : run fuel s (.write k.trkl v) with
  | none => rw [hr] at h; simp at h
  | some s3 =>
    rw [hr] at h
    simp only [Option.map_some', Option.some.injEq, Prod.mk.injEq] at h
    obtain ⟨h1, h2⟩ := h
    subst h1
    refine ⟨h2.symm, ?_⟩
    unfold Konbini.call0
    cases fuel with
    | zero => simp [run] at hr
    | succ n =>
      simp only [run] at hr
      split at hr
      · exact absurd hr (by simp)
      next c hg =>
        have hcn : c.compute = none := by
          unfold compAt at hplain
          rw [hg] at hplain
          simpa using hplain
        have hsome : (getCell s k.trkl).isSome := by rw [hg]; rfl
        by_cases he : c.value = v
        · simp only [hcn, Option.isSome_none, Bool.false_eq_true, if_false, he, if_true] at hr
          cases hr
          exact readCell_setCellValue_self s k.trkl v hsome
        · simp only [hcn, Option.isSome_none, Bool.false_eq_true, if_false, he] at hr
          have hp := run_pres n _ _ _ hr
          have hplain1 : compAt (setCellValue s k.trkl v) k.trkl = some none := by
            rw [compAt_setCellValue]
            exact hplain
          rw [hp.2.2 rfl k.trkl hplain1]
          exact readCell_setCellValue_self s k.trkl v hsome

theorem read_after_write_witness :
    (some 7 : Val) = some 7 ∧ Konbini.call0 c4post oneCell.2 = some 7 :=
  read_after_write 4 oneCell.1 oneCell.2 (some 7) c4post (some 7) (by decide) (by decide)

/-- C10: a store created without an initial value reads as `undefined`, and a
subscriber added before any write is immediately invoked with
`(undefined, undefined)`. -/
theorem konbini_default_undefined (s : State) (sid : Nat) :
    Konbini.call0 (konbini s none).1 (konbini s none).2 = none ∧
    (Konbini.subscribe (konbini s none).1 (konbini s none).2 sid).log
      = (konbini s none).1.log ++ [(sid, none, none)] ∧
    (konbini s none).1.log = s.log := by
  have hg := getCell_konbini s none
  refine ⟨?_, ?_, rfl⟩
  · unfold Konbini.call0 readCell
    rw [hg]
  · unfold Konbini.subscribe trklSubscribe
    simp only [if_true]
    rw [log_pushLog, log_modifyCell]
    have : readCell (konbini s none).1 (konbini s none).2.trkl = none := by
      unfold readCell
      rw [hg]
    rw [this]

/-- C3: `store.subscribe(fn)` (`src/index.ts` lines 66-69) invokes the
subscriber synchronously with `(currentValue, undefined)` exactly once —
one log entry is appended — and registers it; the returned closure is the
unsubscribe of the same subscriber (`Konbini.unsub`). -/
theorem subscribe_immediate_once (s : State) (k : Konbini) (sid : Nat) (c : Cell)
    (hg : getCell s k.trkl = some c) :
    (Konbini.subscribe s k sid).log = s.log ++ [(sid, Konbini.call0 s k, none)] ∧
    subsAt (Konbini.subscribe s k sid) k.trkl = subsAt s k.trkl ++ [Listener.ext sid] := by
  unfold Konbini.subscribe trklSubscribe
  rw [if_pos rfl]
  constructor
  · rw [log_pushLog, log_modifyCell]
    rfl
  · rw [subsAt_pushLog, subsAt_modifyCell_self s k.trkl _ c hg]
    have : subsAt s k.trkl = c.subs := by
      unfold subsAt
      rw [hg]
    rw [this]

theorem subscribe_immediate_once_witness :
    (Konbini.subscribe oneCell.1 oneCell.2 9).log
      = oneCell.1.log ++ [(9, Konbini.call0 oneCell.1 oneCell.2, none)] ∧
    subsAt (Konbini.subscribe oneCell.1 oneCell.2 9) oneCell.2.trkl
      = subsAt oneCell.1 oneCell.2.trkl ++ [Listener.ext 9] :=
  subscribe_immediate_once oneCell.1 oneCell.2 9 ⟨some 3, none, [], []⟩ (by decide)

/-- C8: `store.set` (`src/index.ts` line 65) is literally
`newValue => store(newValue)`: it is the one-argument call, and the
one-argument call returns its argument. -/
theorem set_delegates_to_call (fuel : Nat) (s : State) (k : Konbini) (v : Val) :
    Konbini.set fuel s k v = Konbini.call1 fuel s k v ∧
    (∀ s2 r, Konbini.call1 fuel s k v = some (s2, r) → r = v) := by
  refine ⟨rfl, fun s2 r h => ?_⟩
  unfold Konbini.call1 at h
  cases hr : run fuel s (.write k.trkl v) with
  | none => rw [hr] at h; simp at h
  | some s3 =>
    rw [hr] at h
    simp only [Option.map_some', Option.some.injEq, Prod.mk.injEq] at h
    exact h.2.symm

theorem set_delegates_to_call_witness :
    Konbini.set 4 oneCell.1 oneCell.2 (some 7) = Konbini.call1 4 oneCell.1 oneCell.2 (some 7) ∧
    (some 7 : Val) = some 7 :=
  ⟨(set_delegates_to_call 4 oneCell.1 oneCell.2 (some 7)).1,
   (set_delegates_to_call 4 oneCell.1 oneCell.2 (some 7)).2 c4post (some 7) (by decide)⟩

theorem computed_inv (fuel : Nat) (s : State) (e : Expr) (s2 : State) (k : Konbini)
    (h : computed fuel s e = some (s2, k)) :
    k.trkl = s.cells.length + 1 ∧
    compAt s2 k.trkl = some (some e) ∧
    compAt s2 s.cells.length = some none ∧
    s2.cells.length = s.cells.length + 2 := by
  simp only [computed, trklComputed, konbini, trklMake, Option.map_map] at h
  obtain ⟨s3, hs3, hq⟩ := Option.map_eq_some'.mp h
  have hp := run_pres fuel _ _ _ hs3
  obtain ⟨hs2, hk⟩ : s3 = s2 ∧
      Konbini.mk ((s.cells ++ [(⟨none, none, [], []⟩ : Cell)]).length) = k := by
    simpa using hq
  subst hs2
  subst hk
  have hktrkl : (Konbini.mk ((s.cells ++ [(⟨none, none, [], []⟩ : Cell)]).length)).trkl
      = s.cells.length + 1 := by
    simp
  refine ⟨hktrkl, ?_, ?_, ?_⟩
  · rw [hktrkl, hp.1 (s.cells.length + 1)]
    unfold compAt getCell
    have hcc : ((s.cells ++ [(⟨none, none, [], []⟩ : Cell)]) ++
        [(⟨none, some e, [], []⟩ : Cell)])[s.cells.length + 1]?
        = some (⟨none, some e, [], []⟩ : Cell) := by
      have hl : s.cells.length + 1 = (s.cells ++ [(⟨none, none, [], []⟩ : Cell)]).length := by
        simp
      rw [hl]
      exact List.getElem?_concat_length _ _
    simp only [hcc]
    rfl
  · rw [hp.1 s.cells.length]
    unfold compAt getCell
    have hpc : ((s.cells ++ [(⟨none, none, [], []⟩ : Cell)]) ++
        [(⟨none, some e, [], []⟩ : Cell)])[s.cells.length]?
        = some (⟨none, none, [], []⟩ : Cell) := by
      rw [List.getElem?_append, if_pos (by simp)]
      exact List.getElem?_concat_length _ _
    simp only [hpc]
    rfl
  · rw [hp.2.1]
    simp

/-- C1: a computed store is read-only from the outside — the one-argument
call and `set` leave the whole state (hence the cached value) unchanged, and
subscribing does not change the cached value either; only recompute of the
bound function can. -/
theorem computed_readonly_external (fuel : Nat) (s : State) (e : Expr) (s2 : State)
    (k : Konbini) (h : computed fuel s e = some (s2, k)) (fuel2 : Nat) (v : Val) (sid : Nat) :
    Konbini.call1 (fuel2 + 1) s2 k v = some (s2, v) ∧
    Konbini.set (fuel2 + 1) s2 k v = some (s2, v) ∧
    readCell (Konbini.subscribe s2 k sid) k.trkl = readCell s2 k.trkl := by
  have hinv := computed_inv fuel s e s2 k h
  obtain ⟨c, hc, hcc⟩ : ∃ c, getCell s2 k.trkl = some c ∧ c.compute = some e := by
    have h2 := hinv.2.1
    unfold compAt at h2
    cases hg : getCell s2 k.trkl with
    | none => rw [hg] at h2; simp at h2
    | some c =>
      rw [hg] at h2
      simp only [Option.map_some', Option.some.injEq] at h2
      exact ⟨c, rfl, h2⟩
  have hcall : Konbini.call1 (fuel2 + 1) s2 k v = some (s2, v) := by
    unfold Konbini.call1
    simp only [run, hc]
    simp [hcc]
  refine ⟨hcall, hcall, ?_⟩
  unfold Konbini.subscribe trklSubscribe
  rw [if_pos rfl, readCell_pushLog,
    readCell_modifyCell_value s2 k.trkl
      (fun c => { c with subs := c.subs ++ [Listener.ext sid] }) k.trkl (fun c0 => rfl)]

theorem computed_readonly_external_witness :
    Konbini.call1 4 c1post ⟨2⟩ (some 99) = some (c1post, some 99) ∧
    Konbini.set 4 c1post ⟨2⟩ (some 99) = some (c1post, some 99) ∧
    readCell (Konbini.subscribe c1post ⟨2⟩ 5) (Konbini.mk 2).trkl
      = readCell c1post (Konbini.mk 2).trkl :=
  computed_readonly_external 8 exA.1 (.mul (.read 0) (.const 2)) c1post ⟨2⟩ (by decide)
    3 (some 99) 5

/-- C9: `computed` (`src/index.ts` lines 86-92) replaces the placeholder
store's `trkl` property with the computed observable: the returned store
addresses the newly allocated computed cell, not the placeholder allocated by
the inner `konbini()` call, and read / subscribe act on that computed cell,
leaving the placeholder untouched. -/
theorem computed_uses_replaced_trkl (fuel : Nat) (s : State) (e : Expr) (s2 : State)
    (k : Konbini) (h : computed fuel s e = some (s2, k)) (sid : Nat) :
    k.trkl = s.cells.length + 1 ∧
    (konbini s none).2.trkl = s.cells.length ∧
    k.trkl ≠ (konbini s none).2.trkl ∧
    compAt s2 k.trkl = some (some e) ∧
    compAt s2 (konbini s none).2.trkl = some none ∧
    Konbini.call0 s2 k = readCell s2 k.trkl ∧
    subsAt (Konbini.subscribe s2 k sid) (konbini s none).2.trkl
      = subsAt s2 (konbini s none).2.trkl ∧
    subsAt (Konbini.subscribe s2 k sid) k.trkl = subsAt s2 k.trkl ++ [Listener.ext sid] := by
  have hinv := computed_inv fuel s e s2 k h
  have hpl : (konbini s none).2.trkl = s.cells.length := rfl
  obtain ⟨c, hc⟩ : ∃ c, getCell s2 k.trkl = some c := by
    have h2 := hinv.2.1
    unfold compAt at h2
    cases hg : getCell s2 k.trkl with
    | none => rw [hg] at h2; simp at h2
    | some c => exact ⟨c, rfl⟩
  refine ⟨hinv.1, hpl, by rw [hinv.1, hpl]; omega, hinv.2.1, by rw [hpl]; exact hinv.2.2.1,
    rfl, ?_, ?_⟩
  · unfold Konbini.subscribe trklSubscribe
    rw [if_pos rfl, subsAt_pushLog,
      subsAt_modifyCell_ne s2 k.trkl _ (konbini s none).2.trkl (by rw [hpl, hinv.1]; omega)]
  · unfold Konbini.subscribe trklSubscribe
    rw [if_pos rfl, subsAt_pushLog, subsAt_modifyCell_self s2 k.trkl _ c hc]
    have hsc : subsAt s2 k.trkl = c.subs := by
      unfold subsAt
      rw [hc]
    rw [hsc]

theorem computed_uses_replaced_trkl_witness :
    (Konbini.mk 2).trkl = exA.1.cells.length + 1 ∧
    (konbini exA.1 none).2.trkl = exA.1.cells.length ∧
    (Konbini.mk 2).trkl ≠ (konbini exA.1 none).2.trkl ∧
    compAt c1post (Konbini.mk 2).trkl = some (some (.mul (.read 0) (.const 2))) ∧
    compAt c1post (konbini exA.1 none).2.trkl = some none ∧
    Konbini.call0 c1post ⟨2⟩ = readCell c1post (Konbini.mk 2).trkl ∧
    subsAt (Konbini.subscribe c1post ⟨2⟩ 5) (konbini exA.1 none).2.trkl
      = subsAt c1post (konbini exA.1 none).2.trkl ∧
    subsAt (Konbini.subscribe c1post ⟨2⟩ 5) (Konbini.mk 2).trkl
      = subsAt c1post (Konbini.mk 2).trkl ++ [Listener.ext 5] :=
  computed_uses_replaced_trkl 8 exA.1 (.mul (.read 0) (.const 2)) c1post ⟨2⟩ (by decide) 5

/-- C6: the spec's worked example — `a = konbini(1)`, `b = computed(() =>
a() * 2)`: `b()` is 2 right after construction, and after the write `a(5)`
(whose cascade recomputes `b` synchronously) `b()` is 10 and `a()` is 5. -/
theorem computed_doubles_example :
    exB.map (fun q => Konbini.call0 q.1 q.2) = some (some 2) ∧
    (exB.bind fun q => (Konbini.call1 8 q.1 exA.2 (some 5)).map
      (fun r => (Konbini.call0 r.1 q.2, Konbini.call0 r.1 exA.2)))
      = some (some 10, some 5) := by
  decide

/-- C5: change suppression — writing the value already held appends no log
entry (zero notifications), while a differing write to a cell whose
subscribers are the external `sids` notifies each of them exactly once, in
registration order, with `(newValue, oldValue)`. -/
theorem change_suppression (fuel : Nat) (s : State) (i : Nat) (v : Val) (c : Cell)
    (sids : List Nat) (hg : getCell s i = some c) (hc : c.compute = none)
    (hsubs : c.subs = sids.map Listener.ext) (hfuel : sids.length + 2 ≤ fuel) :
    (c.value = v → run fuel s (.write i v) = some (setCellValue s i v) ∧
      (setCellValue s i v).log = s.log) ∧
    (c.value ≠ v → run fuel s (.write i v)
      = some { setCellValue s i v with
          log := s.log ++ sids.map (fun sid => (sid, v, c.value)) }) := by
  obtain ⟨m, rfl⟩ : ∃ m, fuel = m + 1 := ⟨fuel - 1, by omega⟩
  constructor
  · intro he
    refine ⟨?_, log_setCellValue s i v⟩
    simp only [run, hg]
    simp [hc, he]
  · intro hne
    simp only [run, hg]
    simp only [hc, Option.isSome_none, Bool.false_eq_true, if_false, hne]
    rw [hsubs, run_fan_ext sids m (setCellValue s i v) v c.value (by omega)]
    rw [log_setCellValue]

theorem change_suppression_witness :
    (run 3 subbed (.write 0 (some 3)) = some (setCellValue subbed 0 (some 3)) ∧
      (setCellValue subbed 0 (some 3)).log = subbed.log) ∧
    run 4 subbed (.write 0 (some 4))
      = some { setCellValue subbed 0 (some 4) with
          log := subbed.log ++ [(9, some 4, some 3)] } :=
  ⟨(change_suppression 3 subbed 0 (some 3) ⟨some 3, none, [], [.ext 9]⟩ [9]
      (by decide) (by decide) (by decide) (by decide)).1 (by decide),
   (change_suppression 4 subbed 0 (some 4) ⟨some 3, none, [], [.ext 9]⟩ [9]
      (by decide) (by decide) (by decide) (by decide)).2 (by decide)⟩

theorem list_set_self {α : Type} : ∀ (l : List α) (i : Nat) (c : α),
    l[i]? = some c → l.set i c = l := by
  intro l
  induction l with
  | nil => intro i c h; simp at h
  | cons a rest ih =>
    intro i c h
    cases i with
    | zero =>
      simp only [List.getElem?_cons_zero, Option.some.injEq] at h
      rw [List.set_cons_zero, h]
    | succ n =>
      simp only [List.getElem?_cons_succ] at h
      rw [List.set_cons_succ, ih n c h]

theorem modifyCell_congr_id (s : State) (i : Nat) (f : Cell → Cell)
    (h : ∀ c, getCell s i = some c → f c = c) : modifyCell s i f = s := by
  unfold modifyCell
  cases hg : getCell s i with
  | none => rfl
  | some c =>
    show setCell s i (f c) = s
    rw [h c hg]
    unfold setCell
    unfold getCell at hg
    rw [list_set_self s.cells i c hg]

/-- C7: unsubscribing — if the subscriber was registered (at most once) only
at this store, then after one call of the returned unsubscribe closure it is
registered nowhere, a second call is a no-op returning the very same state,
and no later write delivers any further notification to it. -/
theorem unsubscribe_idempotent (s : State) (k : Konbini) (sid : Nat)
    (h1 : ∀ j, j ≠ k.trkl → Listener.ext sid ∉ subsAt s j)
    (h2 : List.count (Listener.ext sid) (subsAt s k.trkl) ≤ 1) :
    noExtIn (Konbini.unsub s k sid) sid ∧
    Konbini.unsub (Konbini.unsub s k sid) k sid = Konbini.unsub s k sid ∧
    (∀ fuel j v s2, run fuel (Konbini.unsub s k sid) (.write j v) = some s2 →
      logFor s2 sid = logFor (Konbini.unsub s k sid) sid) := by
  have hno : noExtIn (Konbini.unsub s k sid) sid := by
    intro j
    by_cases hj : j = k.trkl
    · subst hj
      cases hg : getCell s k.trkl with
      | none =>
        unfold Konbini.unsub trklUnsubscribe removeListener
        rw [modifyCell_missing s k.trkl _ hg]
        have hempty : subsAt s k.trkl = [] := by
          unfold subsAt
          rw [hg]
        rw [hempty]
        exact List.not_mem_nil _
      | some c =>
        unfold Konbini.unsub trklUnsubscribe removeListener
        rw [subsAt_modifyCell_self s k.trkl _ c hg]
        have hsc : subsAt s k.trkl = c.subs := by
          unfold subsAt
          rw [hg]
        rw [hsc] at h2
        intro hmem
        have hmem2 : Listener.ext sid ∈ c.subs.erase (Listener.ext sid) := hmem
        have hcnt := List.count_erase_self (Listener.ext sid) c.subs
        have hpos := List.count_pos_iff.mpr hmem2
        omega
    · unfold Konbini.unsub trklUnsubscribe removeListener
      rw [subsAt_modifyCell_ne s k.trkl _ j hj]
      exact h1 j hj
  refine ⟨hno, ?_, ?_⟩
  · unfold Konbini.unsub trklUnsubscribe removeListener
    apply modifyCell_congr_id
    intro c hg
    have hnm : Listener.ext sid ∉ c.subs := by
      have := hno k.trkl
      unfold Konbini.unsub trklUnsubscribe removeListener at this
      have hsc : subsAt (modifyCell s k.trkl
          (fun c0 => { c0 with subs := c0.subs.erase (Listener.ext sid) })) k.trkl = c.subs := by
        unfold subsAt
        rw [hg]
      rwa [hsc] at this
    simp [List.erase_of_not_mem hnm]
  · intro fuel j v s2 hrun
    exact (run_noExt_log fuel _ _ _ sid hrun hno trivial).2

theorem unsubscribe_idempotent_witness :
    Konbini.unsub (Konbini.unsub subbed oneCell.2 9) oneCell.2 9
      = Konbini.unsub subbed oneCell.2 9 ∧
    logFor c7post 9 = logFor (Konbini.unsub subbed oneCell.2 9) 9 := by
  have hmain := unsubscribe_idempotent subbed oneCell.2 9
    (by
      intro j hj
      match j with
      | 0 => exact absurd rfl hj
      | jj + 1 =>
        have hnone : getCell subbed (jj + 1) = none := by
          unfold getCell
          apply List.getElem?_eq_none
          have : subbed.cells.length = 1 := by decide
          omega
        unfold subsAt
        rw [hnone]
        exact List.not_mem_nil _)
    (by decide)
  exact ⟨hmain.2.1, hmain.2.2 4 0 (some 5) c7post (by decide)⟩
